import Mathlib

/-! Shallow embedding of the record-synthesis core of the `mmdbmeld` repository
(`source.go`): the mmdb data types, value coercion (`SourceValue.ToMMDBType`,
`toMMDBType`, `toMMDBArray`, `roundToDecimalPlaces`), nested document assembly
(`SourceEntry.ToMMDBMap`) and input loading (`LoadSources`).

Modelling conventions:
* Go floating-point values are idealized as exact rationals (`ℚ`): decimal text
  is parsed exactly, and `math.Round` / `math.Pow` are modelled by exact
  rational arithmetic.  The binary rounding performed by IEEE-754 floats (and
  the narrowing performed by 32-bit parsing) is not modelled.
* Go maps (`mmdbtype.Map`, `map[string]SourceValue`) are unordered; an
  `mmdbtype.Map` is represented as a key-sorted association list (the canonical
  representative of the unordered map), and the iteration order over
  `SourceEntry.Values` is made explicit as a list of key/value pairs.
* Go errors are strings built with `fmt.Errorf`; they are modelled
  structurally, keeping the data that the code formats into the message.
* `strings.Fields` splits on Unicode whitespace; the model uses
  `Char.isWhitespace` (space, tab, carriage return, newline), which agrees on
  all inputs considered here.
-/

/-- Embedding of `mmdbtype.DataType` (the subset of constructors produced by
`source.go`): scalars, `Slice` (arrays) and `Map` (association list). -/
inductive DataType where
  | Bool (b : Bool)
  | Str (s : String)
  | Bytes (bs : List Nat)
  | Int32 (i : Int)
  | UInt16 (n : Nat)
  | UInt32 (n : Nat)
  | UInt64 (n : Nat)
  | Float32 (q : ℚ)
  | Float64 (q : ℚ)
  | Slice (xs : List DataType)
  | Map (entries : List (String × DataType))

/-- The association-list representation of `mmdbtype.Map`. -/
abbrev MMap := List (String × DataType)

/-- Embedding of Go `SourceValue` (fields `Type` and `Value`). -/
structure SourceValue where
  type : String
  value : String
deriving DecidableEq

/-- Embedding of the `Optimizations` configuration; `FloatDecimals` is the only
field `source.go` reads. -/
structure Optimizations where
  FloatDecimals : Int
deriving DecidableEq

/-- Structural model of the errors returned by the coercion functions
(`strconv`/`hex` parse errors, the `"unsupport type"` default branch, and the
`"array entry #%d is invalid"` wrapper). -/
inductive CoerceError where
  | parseError (input : String)
  | unsupportedType
  | invalidArrayElement (index : Nat) (cause : CoerceError)
deriving DecidableEq

/-- Structural model of the errors returned by `SourceEntry.ToMMDBMap`
(`"failed to transform ..."` around a coercion error, and the
`"submap ... already exists but is a ..."` shape conflict). -/
inductive MapError where
  | transformFailed (key value tpe : String) (cause : CoerceError)
  | conflictingShape (key submap : String)
deriving DecidableEq

/-- Numeric value of a string of decimal digits, most significant first. -/
def natOfDigits (ds : List Char) : Nat :=
  ds.foldl (fun a c => a * 10 + (c.toNat - 48)) 0

/-- Strip one optional leading sign, as `strconv.ParseInt` does. -/
def splitSign : List Char → Bool × List Char
  | '-' :: ds => (true, ds)
  | '+' :: ds => (false, ds)
  | ds => (false, ds)

/-- Exact integer denoted by an optionally signed decimal string (the syntax
accepted by `strconv.ParseInt(s, 10, _)`, before any range check). -/
def decNumValue (s : String) : Option Int :=
  let p := splitSign s.data
  if p.2 ≠ [] ∧ p.2.all Char.isDigit then
    some (if p.1 then -(natOfDigits p.2 : Int) else (natOfDigits p.2 : Int))
  else none

/-- Embedding of `strconv.ParseInt(s, 10, bits)`: signed decimal syntax plus
the two's-complement range check; out-of-range input is an error. -/
def goParseInt (s : String) (bits : Nat) : Option Int :=
  (decNumValue s).bind fun v =>
    if -((2 : Int) ^ (bits - 1)) ≤ v ∧ v < (2 : Int) ^ (bits - 1) then some v else none

/-- Embedding of `strconv.ParseUint(s, 10, bits)`: unsigned decimal syntax (no
sign prefix permitted) plus the range check. -/
def goParseUint (s : String) (bits : Nat) : Option Nat :=
  if s.data ≠ [] ∧ s.data.all Char.isDigit then
    if natOfDigits s.data < 2 ^ bits then some (natOfDigits s.data) else none
  else none

/-- Embedding of `strconv.ParseBool`: the fixed set of accepted literals. -/
def goParseBool (s : String) : Option Bool :=
  if s ∈ ["1", "t", "T", "TRUE", "true", "True"] then some true
  else if s ∈ ["0", "f", "F", "FALSE", "false", "False"] then some false
  else none

/-- Value of one hexadecimal digit. -/
def hexDigitVal (c : Char) : Option Nat :=
  if '0' ≤ c ∧ c ≤ '9' then some (c.toNat - 48)
  else if 'a' ≤ c ∧ c ≤ 'f' then some (c.toNat - 87)
  else if 'A' ≤ c ∧ c ≤ 'F' then some (c.toNat - 55)
  else none

/-- Embedding of `hex.DecodeString`: pairs of hex digits become bytes; odd
length or a non-hex character is an error. -/
def hexDecode : List Char → Option (List Nat)
  | [] => some []
  | [_] => none
  | c1 :: c2 :: rest =>
    match hexDigitVal c1, hexDigitVal c2, hexDecode rest with
    | some h, some l, some bs => some ((h * 16 + l) :: bs)
    | _, _, _ => none

/-- Exact rational denoted by a plain decimal string: the sign/digits/point
forms of `strconv.ParseFloat` (exponents, hex floats and inf/nan are outside
the model, and IEEE-754 rounding of the result is idealized away). -/
def parseDecimalQ (s : String) : Option ℚ :=
  let p := splitSign s.data
  let sgn : ℚ := if p.1 then -1 else 1
  match p.2.splitOn '.' with
  | [ip] =>
    if ip ≠ [] ∧ ip.all Char.isDigit then some (sgn * (natOfDigits ip : ℚ)) else none
  | [ip, fp] =>
    if (ip ≠ [] ∨ fp ≠ []) ∧ ip.all Char.isDigit ∧ fp.all Char.isDigit then
      some (sgn * ((natOfDigits ip : ℚ) + (natOfDigits fp : ℚ) / 10 ^ fp.length))
    else none
  | _ => none

/-- Embedding of Go `math.Round`: the nearest integer, ties rounded away from
zero. -/
def goRoundZ (x : ℚ) : Int :=
  if 0 ≤ x then ⌊x + 1 / 2⌋ else -⌊-x + 1 / 2⌋

/-- Embedding of `roundToDecimalPlaces` from `source.go`: negative
`decimalPlaces` is clamped to `0` (here by `Int.toNat`), then the value is
rounded with `math.Round` at `10^decimalPlaces` granularity. -/
def roundToDecimalPlaces (num : ℚ) (decimalPlaces : Int) : ℚ :=
  let shift : ℚ := 10 ^ decimalPlaces.toNat
  (goRoundZ (num * shift) : ℚ) / shift

/-- Split a character list at every separator character (the separators are
dropped); the list of fragments is never empty. -/
def splitOnCharP (p : Char → Bool) : List Char → List (List Char)
  | [] => [[]]
  | c :: cs =>
    let r := splitOnCharP p cs
    if p c then [] :: r
    else
      match r with
      | [] => [[c]]
      | t :: ts => (c :: t) :: ts

/-- Embedding of `strings.Split(s, ".")`: fragments between the dots. -/
def goSplitDots (s : String) : List String :=
  (splitOnCharP (· == '.') s.data).map String.mk

/-- Embedding of `strings.Fields`: maximal runs of non-whitespace characters. -/
def goFields (s : String) : List String :=
  ((splitOnCharP Char.isWhitespace s.data).filter (· ≠ [])).map String.mk

/-- Embedding of `strings.HasSuffix`, at the character-list level. -/
def goHasSuffix (s suffix : String) : Bool :=
  suffix.data.isSuffixOf s.data

/-- Embedding of `toMMDBType` from `source.go`: the scalar coercion switch. -/
def toMMDBType (fieldType fieldValue : String) (optim : Optimizations) :
    Except CoerceError DataType :=
  if fieldType = "bool" then
    match goParseBool fieldValue with
    | none => .error (.parseError fieldValue)
    | some v => .ok (.Bool v)
  else if fieldType = "string" then
    .ok (.Str fieldValue)
  else if fieldType = "hexbytes" then
    match hexDecode fieldValue.data with
    | none => .error (.parseError fieldValue)
    | some v => .ok (.Bytes v)
  else if fieldType = "int32" then
    match goParseInt fieldValue 32 with
    | none => .error (.parseError fieldValue)
    | some v => .ok (.Int32 v)
  else if fieldType = "uint16" then
    match goParseUint fieldValue 16 with
    | none => .error (.parseError fieldValue)
    | some v => .ok (.UInt16 v)
  else if fieldType = "uint32" then
    match goParseUint fieldValue 32 with
    | none => .error (.parseError fieldValue)
    | some v => .ok (.UInt32 v)
  else if fieldType = "uint64" then
    match goParseUint fieldValue 64 with
    | none => .error (.parseError fieldValue)
    | some v => .ok (.UInt64 v)
  else if fieldType = "float32" then
    match parseDecimalQ fieldValue with
    | none => .error (.parseError fieldValue)
    | some v =>
      .ok (.Float32 (if optim.FloatDecimals ≠ 0 then roundToDecimalPlaces v optim.FloatDecimals else v))
  else if fieldType = "float64" then
    match parseDecimalQ fieldValue with
    | none => .error (.parseError fieldValue)
    | some v =>
      .ok (.Float64 (if optim.FloatDecimals ≠ 0 then roundToDecimalPlaces v optim.FloatDecimals else v))
  else
    .error .unsupportedType

/-- Loop of `toMMDBArray`: coerce each token with the subtype, failing with the
0-based index of the first failing token. -/
def arrLoop (fieldType : String) (optim : Optimizations) :
    Nat → List String → Except CoerceError (List DataType)
  | _, [] => .ok []
  | i, f :: fs =>
    match toMMDBType fieldType f optim with
    | .error e => .error (.invalidArrayElement i e)
    | .ok d =>
      match arrLoop fieldType optim (i + 1) fs with
      | .error e => .error e
      | .ok ds => .ok (d :: ds)

/-- Embedding of `toMMDBArray` from `source.go`: split the raw text into
whitespace-separated tokens and coerce each with the subtype. -/
def toMMDBArray (fieldType fieldValue : String) (optim : Optimizations) :
    Except CoerceError DataType :=
  match arrLoop fieldType optim 0 (goFields fieldValue) with
  | .error e => .error e
  | .ok ds => .ok (.Slice ds)

/-- Embedding of `strings.CutPrefix`, at the character-list level. -/
def cutTag (s pre : String) : Option String :=
  if pre.data.isPrefixOf s.data then some (String.mk (s.data.drop pre.data.length)) else none

/-- Embedding of `SourceValue.ToMMDBType`: dispatch on the `"array:"` tag
before falling back to the scalar switch. -/
def SourceValue.ToMMDBType (sv : SourceValue) (optim : Optimizations) :
    Except CoerceError DataType :=
  match cutTag sv.type "array:" with
  | some subType => toMMDBArray subType sv.value optim
  | none => toMMDBType sv.type sv.value optim

/-- Lookup in the association-list representation of an `mmdbtype.Map`. -/
def lookupField : MMap → String → Option DataType
  | [], _ => none
  | (k', v') :: rest, k => if k = k' then some v' else lookupField rest k

/-- Lexicographic comparison of character lists by code point: the canonical
key order for the sorted association-list representation of a Go map. -/
def charsLt : List Char → List Char → Bool
  | [], [] => false
  | [], _ :: _ => true
  | _ :: _, [] => false
  | a :: as, b :: bs =>
    if a.toNat < b.toNat then true
    else if b.toNat < a.toNat then false
    else charsLt as bs

/-- Canonical order on map keys. -/
def keyLt (a b : String) : Bool :=
  charsLt a.data b.data

/-- Insert-or-replace in the key-sorted association list: the canonical
representative of a Go map assignment `m[k] = v`. -/
def insertField : MMap → String → DataType → MMap
  | [], k, v => [(k, v)]
  | (k', v') :: rest, k, v =>
    if k = k' then (k, v) :: rest
    else if keyLt k k' then (k, v) :: (k', v') :: rest
    else (k', v') :: insertField rest k v

/-- Embedding of the per-entry body of `SourceEntry.ToMMDBMap`: walk the
intermediate key parts, creating empty submaps on demand, failing (`.error ()`)
when an intermediate part holds a non-map value, and finally assigning the
value at the last key part (an unconditional Go map assignment). -/
def setPath : MMap → List String → DataType → Except Unit MMap
  | m, [], _ => .ok m
  | m, [last], v => .ok (insertField m last v)
  | m, seg :: nxt :: rest, v =>
    match lookupField m seg with
    | none =>
      match setPath [] (nxt :: rest) v with
      | .error e => .error e
      | .ok sub => .ok (insertField m seg (.Map sub))
    | some (.Map sub) =>
      match setPath sub (nxt :: rest) v with
      | .error e => .error e
      | .ok sub' => .ok (insertField m seg (.Map sub'))
    | some _ => .error ()

/-- Total companion of `setPath`, used in the order-independence proofs: on a
shape conflict it leaves the map unchanged instead of failing.  On conflict-free
inputs it coincides with `setPath` (see `setPath_eq_ok`). -/
def setPathT : MMap → List String → DataType → MMap
  | m, [], _ => m
  | m, [last], v => insertField m last v
  | m, seg :: nxt :: rest, v =>
    match lookupField m seg with
    | none => insertField m seg (.Map (setPathT [] (nxt :: rest) v))
    | some (.Map sub) => insertField m seg (.Map (setPathT sub (nxt :: rest) v))
    | some _ => m

/-- No strict ancestor of the path resolves to a non-map value in `m`: the
condition under which the submap walk of `setPath` cannot conflict. -/
def FreePath : MMap → List String → Prop
  | _, [] => True
  | _, [_] => True
  | m, seg :: nxt :: rest =>
    match lookupField m seg with
    | none => True
    | some (.Map sub) => FreePath sub (nxt :: rest)
    | some _ => False

/-- The remaining iterations of the `for key, entry := range se.Values` loop of
`SourceEntry.ToMMDBMap`, continuing from the map built so far. -/
def assembleFrom (optim : Optimizations) :
    MMap → List (String × SourceValue) → Except MapError MMap
  | m, [] => .ok m
  | m, (key, entry) :: rest =>
    match SourceValue.ToMMDBType entry optim with
    | .error e => .error (.transformFailed key entry.value entry.type e)
    | .ok mmdbVal =>
      match setPath m (goSplitDots key) mmdbVal with
      | .error _ => .error (.conflictingShape key ((goSplitDots key).headD ""))
      | .ok m' => assembleFrom optim m' rest

/-- Embedding of `SourceEntry`; only `Values` is read by `ToMMDBMap`, so the
network-range fields are omitted.  `Values` lists the entries of the Go map in
iteration order. -/
structure SourceEntry where
  Values : List (String × SourceValue)

/-- Embedding of `SourceEntry.ToMMDBMap`: transform every value and set it at
its dotted path, starting from the empty map. -/
def SourceEntry.ToMMDBMap (se : SourceEntry) (optim : Optimizations) :
    Except MapError MMap :=
  assembleFrom optim [] se.Values

/-- Embedding of one entry of `dbConfig.Inputs`; `File` is the only field
`LoadSources` reads. -/
structure InputFile where
  File : String
deriving DecidableEq

/-- Structural model of the errors of `LoadSources` (`"failed to load input
file ..."` wrapping a loader error, and `"unsupported input file: ..."`). -/
inductive LoadError (ε : Type) where
  | loadFailed (file : String) (cause : ε)
  | unsupportedInput (file : String)
deriving DecidableEq

/-- Embedding of `LoadSources` from `source.go`, parameterized by the two
concrete loaders (`LoadCSVSource` and `LoadIPFireSource` are defined outside
`source.go`; their behaviour is irrelevant to the dispatch logic, so they are
passed in as functions). -/
def LoadSources {σ ε : Type} (loadCSV loadIPFire : InputFile → Except ε σ) :
    List InputFile → Except (LoadError ε) (List σ)
  | [] => .ok []
  | input :: rest =>
    if goHasSuffix input.File ".csv" then
      match loadCSV input with
      | .error e => .error (.loadFailed input.File e)
      | .ok s =>
        match LoadSources loadCSV loadIPFire rest with
        | .error e => .error e
        | .ok l => .ok (s :: l)
    else if goHasSuffix input.File ".ipfire.txt" then
      match loadIPFire input with
      | .error e => .error (.loadFailed input.File e)
      | .ok s =>
        match LoadSources loadCSV loadIPFire rest with
        | .error e => .error e
        | .ok l => .ok (s :: l)
    else
      .error (.unsupportedInput input.File)

/-- Dotted path split into its segments, as `strings.Split(key, ".")` does. -/
def segsOf (key : String) : List String :=
  goSplitDots key

/-- Neither segment list is a prefix of the other (the non-conflicting-path
condition of the document assembler). -/
def segDisjoint (a b : List String) : Bool :=
  !(a.isPrefixOf b) && !(b.isPrefixOf a)

/-- Declared scalar type tag that a `DataType` value answers to; `none` for
`Slice` and `Map`. -/
def scalarTagOf : DataType → Option String
  | .Bool _ => some "bool"
  | .Str _ => some "string"
  | .Bytes _ => some "hexbytes"
  | .Int32 _ => some "int32"
  | .UInt16 _ => some "uint16"
  | .UInt32 _ => some "uint32"
  | .UInt64 _ => some "uint64"
  | .Float32 _ => some "float32"
  | .Float64 _ => some "float64"
  | .Slice _ => none
  | .Map _ => none

/-- The scalar type tags handled by the switch of `toMMDBType`. -/
def supportedScalarTypes : List String :=
  ["bool", "string", "hexbytes", "int32", "uint16", "uint32", "uint64", "float32", "float64"]

/-- Modelled from the spec: "round-half-to-even at `10^precision` granularity;
a negative configured precision is treated as zero decimal places".  Comparison
definition for claim C2; the code's own rounding is `roundToDecimalPlaces`. -/
def specRoundHalfToEven (num : ℚ) (precision : Int) : ℚ :=
  let shift : ℚ := 10 ^ precision.toNat
  let x := num * shift
  let f : Int := ⌊x⌋
  let r : Int :=
    if x - f < 1 / 2 then f
    else if 1 / 2 < x - f then f + 1
    else if f % 2 = 0 then f else f + 1
  (r : ℚ) / shift

/-- Pointwise update of one key of a map: apply `f` to the current value
(`none` when absent); `none` result means "leave the map unchanged".  Proof
device relating `setPathT` steps at distinct keys. -/
def applyUpd (m : MMap) (k : String) (f : Option DataType → Option DataType) : MMap :=
  match f (lookupField m k) with
  | some x => insertField m k x
  | none => m

/-- The update `setPathT` performs at the head key of a non-empty path. -/
def pathUpd (ps : List String) (v : DataType) : Option DataType → Option DataType :=
  fun cur =>
    match ps with
    | [] => some v
    | _ :: _ =>
      match cur with
      | none => some (.Map (setPathT [] ps v))
      | some (.Map sub) => some (.Map (setPathT sub ps v))
      | some _ => none

theorem splitOnCharP_ne_nil (p : Char → Bool) (cs : List Char) : splitOnCharP p cs ≠ [] := by
  induction cs with
  | nil => simp [splitOnCharP]
  | cons c cs ih =>
    simp only [splitOnCharP]
    split
    · simp
    · split <;> simp

theorem except_isOk_iff {ε α : Type} (x : Except ε α) : x.isOk = true ↔ ∃ a, x = .ok a := by
  cases x <;> simp [Except.isOk, Except.toBool]

theorem arrLoop_ok (ft : String) (o : Optimizations) :
    ∀ (fs : List String) (i : Nat), (∀ t ∈ fs, (toMMDBType ft t o).isOk = true) →
    ∃ ds, arrLoop ft o i fs = .ok ds ∧
      List.Forall₂ (fun t d => toMMDBType ft t o = .ok d) fs ds := by
  intro fs
  induction fs with
  | nil => exact fun i _ => ⟨[], rfl, .nil⟩
  | cons f fs ih =>
    intro i h
    obtain ⟨d, hd⟩ := (except_isOk_iff _).1 (h f (by simp))
    obtain ⟨ds, hds, hall⟩ := ih (i + 1) (fun t ht => h t (by simp [ht]))
    exact ⟨d :: ds, by simp [arrLoop, hd, hds], .cons hd hall⟩

theorem arrLoop_err (ft : String) (o : Optimizations) (bad : String) (c : CoerceError)
    (rest : List String) (hbad : toMMDBType ft bad o = .error c) :
    ∀ (pre : List String) (i : Nat), (∀ t ∈ pre, (toMMDBType ft t o).isOk = true) →
    arrLoop ft o i (pre ++ bad :: rest) = .error (.invalidArrayElement (i + pre.length) c) := by
  intro pre
  induction pre with
  | nil => intro i _; simp [arrLoop, hbad]
  | cons f fs ih =>
    intro i h
    obtain ⟨d, hd⟩ := (except_isOk_iff _).1 (h f (by simp))
    have hr := ih (i + 1) (fun t ht => h t (by simp [ht]))
    have hidx : i + 1 + fs.length = i + (fs.length + 1) := by omega
    simp [arrLoop, hd, hr, hidx]

theorem arrLoop_elements (ft : String) (o : Optimizations) :
    ∀ (fs : List String) (i : Nat) (ds : List DataType), arrLoop ft o i fs = .ok ds →
    List.Forall₂ (fun t d => toMMDBType ft t o = .ok d) fs ds := by
  intro fs
  induction fs with
  | nil => intro i ds h; simp [arrLoop] at h; subst h; exact .nil
  | cons f fs ih =>
    intro i ds h
    simp only [arrLoop] at h
    cases hv : toMMDBType ft f o with
    | error e => rw [hv] at h; simp at h
    | ok d =>
      rw [hv] at h
      cases hr : arrLoop ft o (i + 1) fs with
      | error e => rw [hr] at h; simp at h
      | ok ds' =>
        rw [hr] at h
        simp at h
        subst h
        exact .cons hv (ih _ _ hr)

theorem toMMDBType_tag (ft s : String) (o : Optimizations) (d : DataType)
    (h : toMMDBType ft s o = .ok d) : scalarTagOf d = some ft := by
  by_cases h1 : ft = "bool"
  · subst h1
    cases hp : goParseBool s
    · simp [toMMDBType, hp] at h
    · simp [toMMDBType, hp] at h
      subst h; rfl
  by_cases h2 : ft = "string"
  · subst h2
    simp [toMMDBType] at h
    subst h; rfl
  by_cases h3 : ft = "hexbytes"
  · subst h3
    cases hp : hexDecode s.data
    · simp [toMMDBType, hp] at h
    · simp [toMMDBType, hp] at h
      subst h; rfl
  by_cases h4 : ft = "int32"
  · subst h4
    cases hp : goParseInt s 32
    · simp [toMMDBType, hp] at h
    · simp [toMMDBType, hp] at h
      subst h; rfl
  by_cases h5 : ft = "uint16"
  · subst h5
    cases hp : goParseUint s 16
    · simp [toMMDBType, hp] at h
    · simp [toMMDBType, hp] at h
      subst h; rfl
  by_cases h6 : ft = "uint32"
  · subst h6
    cases hp : goParseUint s 32
    · simp [toMMDBType, hp] at h
    · simp [toMMDBType, hp] at h
      subst h; rfl
  by_cases h7 : ft = "uint64"
  · subst h7
    cases hp : goParseUint s 64
    · simp [toMMDBType, hp] at h
    · simp [toMMDBType, hp] at h
      subst h; rfl
  by_cases h8 : ft = "float32"
  · subst h8
    cases hp : parseDecimalQ s
    · simp [toMMDBType, hp] at h
    · simp [toMMDBType, hp] at h
      subst h; rfl
  by_cases h9 : ft = "float64"
  · subst h9
    cases hp : parseDecimalQ s
    · simp [toMMDBType, hp] at h
    · simp [toMMDBType, hp] at h
      subst h; rfl
  simp [toMMDBType, h1, h2, h3, h4, h5, h6, h7, h8, h9] at h

theorem toMMDBType_unsupported (ft s : String) (o : Optimizations)
    (h : ft ∉ supportedScalarTypes) : toMMDBType ft s o = .error .unsupportedType := by
  simp [supportedScalarTypes] at h
  obtain ⟨h1, h2, h3, h4, h5, h6, h7, h8, h9⟩ := h
  simp [toMMDBType, h1, h2, h3, h4, h5, h6, h7, h8, h9]

theorem arrayTag_not_supported (sub : String)
    (h : ("array:".data).isPrefixOf sub.data = true) : sub ∉ supportedScalarTypes := by
  intro hmem
  simp [supportedScalarTypes] at hmem
  rcases hmem with h' | h' | h' | h' | h' | h' | h' | h' | h' <;> subst h' <;> simp at h

/-- C7: coercion is deterministic: equal inputs under the same optimization
configuration give equal results, so both invocations fail together or succeed
with equal typed values. -/
theorem coerce_deterministic (sv sv' : SourceValue) (o : Optimizations)
    (ht : sv.type = sv'.type) (hv : sv.value = sv'.value) :
    SourceValue.ToMMDBType sv o = SourceValue.ToMMDBType sv' o ∧
      ((∃ e, SourceValue.ToMMDBType sv o = .error e ∧ SourceValue.ToMMDBType sv' o = .error e) ∨
        (∃ d, SourceValue.ToMMDBType sv o = .ok d ∧ SourceValue.ToMMDBType sv' o = .ok d)) := by
  obtain ⟨t, v⟩ := sv
  obtain ⟨t', v'⟩ := sv'
  cases ht
  cases hv
  refine ⟨rfl, ?_⟩
  cases h : SourceValue.ToMMDBType ⟨t, v⟩ o with
  | error e => exact .inl ⟨e, rfl, rfl⟩
  | ok d => exact .inr ⟨d, rfl, rfl⟩

theorem coerce_deterministic_witness :
    (({ type := "uint16", value := "7" } : SourceValue).type = "uint16") ∧
      (SourceValue.ToMMDBType ⟨"uint16", "7"⟩ ⟨0⟩ = SourceValue.ToMMDBType ⟨"uint16", "7"⟩ ⟨0⟩ ∧
        ((∃ e, SourceValue.ToMMDBType ⟨"uint16", "7"⟩ ⟨0⟩ = .error e ∧
            SourceValue.ToMMDBType ⟨"uint16", "7"⟩ ⟨0⟩ = .error e) ∨
          (∃ d, SourceValue.ToMMDBType ⟨"uint16", "7"⟩ ⟨0⟩ = .ok d ∧
            SourceValue.ToMMDBType ⟨"uint16", "7"⟩ ⟨0⟩ = .ok d))) :=
  ⟨rfl, coerce_deterministic ⟨"uint16", "7"⟩ ⟨"uint16", "7"⟩ ⟨0⟩ rfl rfl⟩

/-- C3: an array coercion over tokens `pre ++ bad :: rest` where every token of
`pre` coerces and `bad` fails, fails with `invalidArrayElement` at index
`pre.length` (the 0-based position of the first failing token); a raw text
with no tokens yields the empty array, not an error. -/
theorem array_error_position (sub v : String) (o : Optimizations) :
    (goFields v = [] → toMMDBArray sub v o = .ok (.Slice [])) ∧
    (∀ pre bad rest c, goFields v = pre ++ bad :: rest →
      (∀ t ∈ pre, (toMMDBType sub t o).isOk = true) →
      toMMDBType sub bad o = .error c →
      toMMDBArray sub v o = .error (.invalidArrayElement pre.length c)) := by
  constructor
  · intro hf
    simp [toMMDBArray, hf, arrLoop]
  · intro pre bad rest c hf hpre hbad
    have := arrLoop_err sub o bad c rest hbad pre 0 hpre
    simp [toMMDBArray, hf, this]

theorem array_error_position_witness :
    (goFields "1 x 3" = ["1"] ++ "x" :: ["3"]) ∧
      (∀ t ∈ ["1"], (toMMDBType "uint16" t (⟨0⟩ : Optimizations)).isOk = true) ∧
      toMMDBType "uint16" "x" ⟨0⟩ = .error (.parseError "x") ∧
      toMMDBArray "uint16" "1 x 3" ⟨0⟩ =
        .error (.invalidArrayElement (["1"] : List String).length (.parseError "x")) :=
  ⟨rfl, by decide, rfl,
    (array_error_position "uint16" "1 x 3" ⟨0⟩).2 ["1"] "x" ["3"] (.parseError "x")
      rfl (by decide) rfl⟩

/-- C6: when every whitespace-separated token of the raw text coerces under the
subtype, the array coercion succeeds with exactly one typed element per token,
in token order (stated with `List.Forall₂`, which forces equal lengths and
pointwise correspondence in order). -/
theorem array_roundtrip (sub v : String) (o : Optimizations)
    (h : ∀ t ∈ goFields v, (toMMDBType sub t o).isOk = true) :
    ∃ ds, toMMDBArray sub v o = .ok (.Slice ds) ∧
      List.Forall₂ (fun t d => toMMDBType sub t o = .ok d) (goFields v) ds := by
  obtain ⟨ds, hds, hall⟩ := arrLoop_ok sub o (goFields v) 0 h
  exact ⟨ds, by simp [toMMDBArray, hds], hall⟩

theorem array_roundtrip_witness :
    (∀ t ∈ goFields "1 2 3", (toMMDBType "uint16" t (⟨0⟩ : Optimizations)).isOk = true) ∧
      ∃ ds, toMMDBArray "uint16" "1 2 3" ⟨0⟩ = .ok (.Slice ds) ∧
        List.Forall₂ (fun t d => toMMDBType "uint16" t ⟨0⟩ = .ok d) (goFields "1 2 3") ds :=
  ⟨by decide, array_roundtrip "uint16" "1 2 3" ⟨0⟩ (by decide)⟩

/-- C9 (amended): a type tag that is neither a supported scalar tag nor an
`array:` tag fails with the unsupported-type error for every raw text; an
`array:` tag with an unsupported subtype fails for every raw text that has at
least one token, but yields the empty array on a token-free raw text. -/
theorem unknown_tag_fails (tag s : String) (o : Optimizations) :
    (cutTag tag "array:" = none → tag ∉ supportedScalarTypes →
      SourceValue.ToMMDBType ⟨tag, s⟩ o = .error .unsupportedType) ∧
    (∀ sub, cutTag tag "array:" = some sub → sub ∉ supportedScalarTypes →
      SourceValue.ToMMDBType ⟨tag, s⟩ o =
        if goFields s = [] then .ok (.Slice []) else
          .error (.invalidArrayElement 0 .unsupportedType)) := by
  constructor
  · intro hcut hmem
    simp only [SourceValue.ToMMDBType, hcut]
    exact toMMDBType_unsupported tag s o hmem
  · intro sub hcut hmem
    simp only [SourceValue.ToMMDBType, hcut]
    cases hf : goFields s with
    | nil => simp [toMMDBArray, hf, arrLoop]
    | cons f fs =>
      simp [toMMDBArray, hf, arrLoop, toMMDBType_unsupported sub f o hmem]

theorem unknown_tag_fails_witness :
    (cutTag "mystery" "array:" = none) ∧ ("mystery" ∉ supportedScalarTypes) ∧
      SourceValue.ToMMDBType ⟨"mystery", "zzz"⟩ ⟨0⟩ = .error .unsupportedType :=
  ⟨rfl, by decide, (unknown_tag_fails "mystery" "zzz" ⟨0⟩).1 rfl (by decide)⟩

/-- C9 counterexample: `"array:bogus"` is in the claim's scope (not a supported
scalar tag, and its `array:` subtype is unsupported), yet coercion of a
whitespace-only raw text succeeds with an empty array instead of failing. -/
theorem unknown_tag_fails_counterexample :
    cutTag "array:bogus" "array:" = some "bogus" ∧
      "bogus" ∉ supportedScalarTypes ∧
      SourceValue.ToMMDBType ⟨"array:bogus", " "⟩ ⟨0⟩ = .ok (.Slice []) :=
  ⟨rfl, by decide, rfl⟩

theorem forall₂_tag (ft : String) (o : Optimizations) :
    ∀ (fs : List String) (ds : List DataType),
    List.Forall₂ (fun t d => toMMDBType ft t o = .ok d) fs ds →
    ∀ x ∈ ds, scalarTagOf x = some ft := by
  intro fs ds hall
  induction hall with
  | nil => intro x hx; simp at hx
  | cons hrel _ ih =>
    intro x hx
    rcases List.mem_cons.1 hx with rfl | hx'
    · exact toMMDBType_tag _ _ _ _ hrel
    · exact ih x hx'

/-- C8 (amended): every successfully coerced array is homogeneous: all its
elements answer to the single declared scalar subtype (in particular none is
itself an array or a map); and an `array:array:<t>` tag coerces successfully
only to the empty array (which is the one way it can succeed, on token-free
raw text) -- so no coerced value ever contains a nested array. -/
theorem array_homogeneous (sv : SourceValue) (o : Optimizations) :
    (∀ xs, SourceValue.ToMMDBType sv o = .ok (.Slice xs) →
      ∃ sub, cutTag sv.type "array:" = some sub ∧ ∀ x ∈ xs, scalarTagOf x = some sub) ∧
    (∀ sub d, cutTag sv.type "array:" = some sub →
      ("array:".data).isPrefixOf sub.data = true →
      SourceValue.ToMMDBType sv o = .ok d → d = .Slice []) := by
  constructor
  · intro xs h
    cases hcut : cutTag sv.type "array:" with
    | none =>
      simp only [SourceValue.ToMMDBType, hcut] at h
      have := toMMDBType_tag sv.type sv.value o (.Slice xs) h
      simp [scalarTagOf] at this
    | some sub =>
      refine ⟨sub, rfl, ?_⟩
      simp only [SourceValue.ToMMDBType, hcut] at h
      simp only [toMMDBArray] at h
      cases hl : arrLoop sub o 0 (goFields sv.value) with
      | error e => rw [hl] at h; simp at h
      | ok ds =>
        rw [hl] at h
        simp at h
        subst h
        exact forall₂_tag sub o _ _ (arrLoop_elements sub o (goFields sv.value) 0 ds hl)
  · intro sub d hcut hpre h
    have hmem := arrayTag_not_supported sub hpre
    simp only [SourceValue.ToMMDBType, hcut] at h
    cases hf : goFields sv.value with
    | nil =>
      simp [toMMDBArray, hf, arrLoop] at h
      exact h.symm
    | cons f fs =>
      simp [toMMDBArray, hf, arrLoop, toMMDBType_unsupported sub f o hmem] at h

theorem array_homogeneous_witness :
    (SourceValue.ToMMDBType ⟨"array:uint32", "1 2"⟩ ⟨0⟩ =
        .ok (.Slice [.UInt32 1, .UInt32 2])) ∧
      (∃ sub, cutTag "array:uint32" "array:" = some sub ∧
        ∀ x ∈ [DataType.UInt32 1, DataType.UInt32 2], scalarTagOf x = some sub) :=
  ⟨rfl, (array_homogeneous ⟨"array:uint32", "1 2"⟩ ⟨0⟩).1 [.UInt32 1, .UInt32 2] rfl⟩

/-- C8 counterexample: the tag `"array:array:int32"` does coerce successfully
(to the empty array) when the raw text has no tokens, refuting "never coerces
successfully". -/
theorem array_homogeneous_counterexample :
    cutTag "array:array:int32" "array:" = some "array:int32" ∧
      SourceValue.ToMMDBType ⟨"array:array:int32", ""⟩ ⟨0⟩ = .ok (.Slice []) :=
  ⟨rfl, rfl⟩

theorem goParseUint_out_of_range (s : String) (bits : Nat) (v : Int)
    (hv : decNumValue s = some v) (hrange : v < 0 ∨ (2 : Int) ^ bits ≤ v) :
    goParseUint s bits = none := by
  unfold decNumValue at hv
  by_cases hc : (splitSign s.data).2 ≠ [] ∧ (splitSign s.data).2.all Char.isDigit
  · rw [if_pos hc] at hv
    simp only [Option.some.injEq] at hv
    cases hd : s.data with
    | nil => simp [hd, splitSign] at hc
    | cons c cs =>
      by_cases hminus : c = '-'
      · subst hminus
        have hs : splitSign s.data = (true, cs) := by rw [hd]; rfl
        rw [hs] at hv hc
        unfold goParseUint
        rw [hd]
        have : ¬(('-' :: cs ≠ []) ∧ ('-' :: cs).all Char.isDigit) := by
          intro ⟨_, hall⟩
          simp [List.all_cons] at hall
        rw [if_neg this]
      · by_cases hplus : c = '+'
        · subst hplus
          have hs : splitSign s.data = (false, cs) := by rw [hd]; rfl
          rw [hs] at hv hc
          unfold goParseUint
          rw [hd]
          have : ¬(('+' :: cs ≠ []) ∧ ('+' :: cs).all Char.isDigit) := by
            intro ⟨_, hall⟩
            simp [List.all_cons] at hall
          rw [if_neg this]
        · have hs : splitSign s.data = (false, c :: cs) := by
            rw [hd]; simp [splitSign, hminus, hplus]
          rw [hs] at hv hc
          simp only [if_neg] at hv
          have hv' : v = (natOfDigits (c :: cs) : Int) := by
            simpa using hv.symm
          have hge : (2 : Int) ^ bits ≤ v := by
            rcases hrange with hneg | hge
            · exfalso
              rw [hv'] at hneg
              omega
            · exact hge
          unfold goParseUint
          rw [hd, if_pos (by exact ⟨by simp, hc.2⟩)]
          rw [if_neg]
          intro hlt
          rw [hv'] at hge
          have : ((2 : Int) ^ bits) ≤ (natOfDigits (c :: cs) : Int) := hge
      
          have h2 : (2 : Nat) ^ bits ≤ natOfDigits (c :: cs) := by exact_mod_cast this
          omega
  · rw [if_neg hc] at hv
    exact absurd hv (by simp)

/-- C5: integer coercions enforce the declared bit width and signedness: a
well-formed decimal numeral whose value lies outside the declared range (for
unsigned types, any negative value) makes the coercion fail rather than
truncate. -/
theorem integer_range_enforced (o : Optimizations) (s : String) (v : Int)
    (hv : decNumValue s = some v) :
    ((v < -((2 : Int) ^ 31) ∨ (2 : Int) ^ 31 ≤ v) →
      toMMDBType "int32" s o = .error (.parseError s)) ∧
    ((v < 0 ∨ (2 : Int) ^ 16 ≤ v) → toMMDBType "uint16" s o = .error (.parseError s)) ∧
    ((v < 0 ∨ (2 : Int) ^ 32 ≤ v) → toMMDBType "uint32" s o = .error (.parseError s)) ∧
    ((v < 0 ∨ (2 : Int) ^ 64 ≤ v) → toMMDBType "uint64" s o = .error (.parseError s)) := by
  refine ⟨?_, ?_, ?_, ?_⟩
  · intro hrange
    have hnone : goParseInt s 32 = none := by
      unfold goParseInt
      rw [hv]
      simp only [Option.some_bind]
      rw [if_neg]
      intro ⟨hlo, hhi⟩
      rcases hrange with h' | h' <;> omega
    simp [toMMDBType, hnone]
  · intro hrange
    simp [toMMDBType, goParseUint_out_of_range s 16 v hv hrange]
  · intro hrange
    simp [toMMDBType, goParseUint_out_of_range s 32 v hv hrange]
  · intro hrange
    simp [toMMDBType, goParseUint_out_of_range s 64 v hv hrange]

theorem integer_range_enforced_witness :
    (decNumValue "2147483648" = some 2147483648) ∧
      ((2147483648 : Int) < -((2 : Int) ^ 31) ∨ (2 : Int) ^ 31 ≤ 2147483648) ∧
      toMMDBType "int32" "2147483648" ⟨0⟩ = .error (.parseError "2147483648") :=
  ⟨by decide, by norm_num,
    (integer_range_enforced ⟨0⟩ "2147483648" 2147483648 (by decide)).1 (by norm_num)⟩

theorem goRoundZ_near_nonneg (x : ℚ) (hx : 0 ≤ x) :
    |(⌊x + 1 / 2⌋ : ℚ) - x| ≤ 1 / 2 ∧
      (|(⌊x + 1 / 2⌋ : ℚ) - x| = 1 / 2 → |(⌊x + 1 / 2⌋ : ℚ)| = |x| + 1 / 2) := by
  have h1 : ((⌊x + 1 / 2⌋ : ℚ)) ≤ x + 1 / 2 := Int.floor_le _
  have h2 : x + 1 / 2 < (⌊x + 1 / 2⌋ : ℚ) + 1 := Int.lt_floor_add_one _
  constructor
  · rw [abs_le]
    constructor <;> linarith
  · intro htie
    rcases abs_eq (by norm_num : (0 : ℚ) ≤ 1 / 2) |>.1 htie with heq | heq
    · have hfl : ((⌊x + 1 / 2⌋ : ℚ)) = x + 1 / 2 := by linarith
      rw [hfl, abs_of_nonneg hx, abs_of_nonneg (by linarith : (0 : ℚ) ≤ x + 1 / 2)]
    · exfalso; linarith

theorem goRoundZ_near (x : ℚ) :
    |(goRoundZ x : ℚ) - x| ≤ 1 / 2 ∧
      (|(goRoundZ x : ℚ) - x| = 1 / 2 → |(goRoundZ x : ℚ)| = |x| + 1 / 2) := by
  unfold goRoundZ
  by_cases hx : 0 ≤ x
  · rw [if_pos hx]
    exact goRoundZ_near_nonneg x hx
  · rw [if_neg hx]
    have hx' : 0 ≤ -x := by linarith
    obtain ⟨hnear, htie⟩ := goRoundZ_near_nonneg (-x) hx'
    push_cast
    have hkey : (-(⌊-x + 1 / 2⌋ : ℚ)) - x = -((⌊-x + 1 / 2⌋ : ℚ) - -x) := by ring
    rw [hkey, abs_neg]
    refine ⟨hnear, fun ht => ?_⟩
    rw [abs_neg, htie ht, abs_neg]

/-- C2 (amended): float coercion parses the decimal text exactly; with
configured precision 0 no rounding happens; with nonzero precision the value
is rounded at `10^(max precision 0)` granularity to a nearest multiple, with
ties rounded AWAY FROM ZERO (`math.Round`), not half-to-even; a negative
precision is clamped to zero decimal places. -/
theorem float_rounding (o : Optimizations) (s : String) (q : ℚ)
    (hq : parseDecimalQ s = some q) :
    (o.FloatDecimals = 0 →
      toMMDBType "float64" s o = .ok (.Float64 q) ∧
        toMMDBType "float32" s o = .ok (.Float32 q)) ∧
    (o.FloatDecimals ≠ 0 →
      ∃ k : Int,
        toMMDBType "float64" s o =
            .ok (.Float64 ((k : ℚ) / 10 ^ o.FloatDecimals.toNat)) ∧
          toMMDBType "float32" s o =
            .ok (.Float32 ((k : ℚ) / 10 ^ o.FloatDecimals.toNat)) ∧
          |(k : ℚ) - q * 10 ^ o.FloatDecimals.toNat| ≤ 1 / 2 ∧
          (|(k : ℚ) - q * 10 ^ o.FloatDecimals.toNat| = 1 / 2 →
            |(k : ℚ)| = |q * 10 ^ o.FloatDecimals.toNat| + 1 / 2) ∧
          (o.FloatDecimals < 0 → o.FloatDecimals.toNat = 0)) := by
  constructor
  · intro hz
    constructor <;> simp [toMMDBType, hq, hz]
  · intro hnz
    refine ⟨goRoundZ (q * 10 ^ o.FloatDecimals.toNat), ?_, ?_, ?_, ?_, ?_⟩
    · simp [toMMDBType, hq, hnz, roundToDecimalPlaces]
    · simp [toMMDBType, hq, hnz, roundToDecimalPlaces]
    · exact (goRoundZ_near (q * 10 ^ o.FloatDecimals.toNat)).1
    · exact (goRoundZ_near (q * 10 ^ o.FloatDecimals.toNat)).2
    · intro hneg
      simp [Int.toNat_of_nonpos (by omega : o.FloatDecimals ≤ 0)]

theorem float_rounding_witness : 
    (parseDecimalQ "1.005" = some (201 / 200)) ∧
      ((⟨2⟩ : Optimizations).FloatDecimals ≠ 0) ∧
      (∃ k : Int,
        toMMDBType "float64" "1.005" ⟨2⟩ =
            .ok (.Float64 ((k : ℚ) / 10 ^ ((2 : Int)).toNat)) ∧
          toMMDBType "float32" "1.005" ⟨2⟩ =
            .ok (.Float32 ((k : ℚ) / 10 ^ ((2 : Int)).toNat)) ∧
          |(k : ℚ) - (201 / 200) * 10 ^ ((2 : Int)).toNat| ≤ 1 / 2 ∧
          (|(k : ℚ) - (201 / 200) * 10 ^ ((2 : Int)).toNat| = 1 / 2 →
            |(k : ℚ)| = |(201 / 200 : ℚ) * 10 ^ ((2 : Int)).toNat| + 1 / 2) ∧
          ((2 : Int) < 0 → ((2 : Int)).toNat = 0)) := by
  have hq : parseDecimalQ "1.005" = some (201 / 200) := by
    rw [show parseDecimalQ "1.005" =
      some ((1 : ℚ) * ((natOfDigits ['1'] : ℚ) +
        (natOfDigits ['0', '0', '5'] : ℚ) / 10 ^ (3 : Nat))) from rfl]
    rw [show natOfDigits ['1'] = 1 from by decide,
      show natOfDigits ['0', '0', '5'] = 5 from by decide]
    norm_num
  exact ⟨hq, by decide, (float_rounding ⟨2⟩ "1.005" (201 / 200) hq).2 (by decide)⟩

/-- C2 counterexample: with precision 1 the code rounds `0.25` to `0.3`
(`math.Round` ties go away from zero), while round-half-to-even at `10^1`
granularity yields `0.2`; so the rounding mode stated by the claim is not the
one the code implements. -/
theorem float_rounding_counterexample :
    toMMDBType "float64" "0.25" ⟨1⟩ = .ok (.Float64 (3 / 10)) ∧
      specRoundHalfToEven (1 / 4) 1 = 1 / 5 ∧ ((3 : ℚ) / 10) ≠ 1 / 5 := by
  have hq : parseDecimalQ "0.25" = some (1 / 4) := by
    rw [show parseDecimalQ "0.25" =
      some ((1 : ℚ) * ((natOfDigits ['0'] : ℚ) +
        (natOfDigits ['2', '5'] : ℚ) / 10 ^ (2 : Nat))) from rfl]
    rw [show natOfDigits ['0'] = 0 from by decide,
      show natOfDigits ['2', '5'] = 25 from by decide]
    norm_num
  refine ⟨?_, ?_, by norm_num⟩
  · simp only [toMMDBType, hq]
    norm_num [roundToDecimalPlaces, goRoundZ]
    simp
  · norm_num [specRoundHalfToEven]

theorem loadSources_length {σ ε : Type} (loadCSV loadIPFire : InputFile → Except ε σ) :
    ∀ (inputs : List InputFile) (l : List σ),
      LoadSources loadCSV loadIPFire inputs = .ok l →
      l.length = inputs.length ∧
        ∀ inp ∈ inputs, goHasSuffix inp.File ".csv" = true ∨
          goHasSuffix inp.File ".ipfire.txt" = true := by
  intro inputs
  induction inputs with
  | nil =>
    intro l h
    simp [LoadSources] at h
    subst h
    simp
  | cons input rest ih =>
    intro l h
    simp only [LoadSources] at h
    by_cases hcsv : goHasSuffix input.File ".csv" = true
    · rw [if_pos hcsv] at h
      cases hl : loadCSV input with
      | error e => rw [hl] at h; simp at h
      | ok s =>
        rw [hl] at h
        cases hr : LoadSources loadCSV loadIPFire rest with
        | error e => rw [hr] at h; simp at h
        | ok l' =>
          rw [hr] at h
          simp at h
          subst h
          obtain ⟨hlen, hall⟩ := ih l' hr
          refine ⟨by simp [hlen], ?_⟩
          intro inp hinp
          rcases List.mem_cons.1 hinp with rfl | hmem
          · exact .inl hcsv
          · exact hall inp hmem
    · rw [if_neg hcsv] at h
      by_cases hipf : goHasSuffix input.File ".ipfire.txt" = true
      · rw [if_pos hipf] at h
        cases hl : loadIPFire input with
        | error e => rw [hl] at h; simp at h
        | ok s =>
          rw [hl] at h
          cases hr : LoadSources loadCSV loadIPFire rest with
          | error e => rw [hr] at h; simp at h
          | ok l' =>
            rw [hr] at h
            simp at h
            subst h
            obtain ⟨hlen, hall⟩ := ih l' hr
            refine ⟨by simp [hlen], ?_⟩
            intro inp hinp
            rcases List.mem_cons.1 hinp with rfl | hmem
            · exact .inr hipf
            · exact hall inp hmem
      · rw [if_neg hipf] at h
        simp at h

theorem loadSources_bad_suffix_error {σ ε : Type}
    (loadCSV loadIPFire : InputFile → Except ε σ) :
    ∀ (inputs : List InputFile),
      (∃ inp ∈ inputs, goHasSuffix inp.File ".csv" = false ∧
        goHasSuffix inp.File ".ipfire.txt" = false) →
      ∃ e, LoadSources loadCSV loadIPFire inputs = .error e := by
  intro inputs
  induction inputs with
  | nil => rintro ⟨inp, hmem, -⟩; simp at hmem
  | cons input rest ih =>
    rintro ⟨inp, hmem, hbad1, hbad2⟩
    rcases List.mem_cons.1 hmem with rfl | hmem'
    · simp only [LoadSources]
      rw [if_neg (by simp [hbad1]), if_neg (by simp [hbad2])]
      exact ⟨.unsupportedInput inp.File, rfl⟩
    · simp only [LoadSources]
      by_cases hcsv : goHasSuffix input.File ".csv" = true
      · rw [if_pos hcsv]
        cases hl : loadCSV input with
        | error e => exact ⟨.loadFailed input.File e, rfl⟩
        | ok s =>
          obtain ⟨e, he⟩ := ih ⟨inp, hmem', hbad1, hbad2⟩
          rw [he]
          exact ⟨e, rfl⟩
      · rw [if_neg hcsv]
        by_cases hipf : goHasSuffix input.File ".ipfire.txt" = true
        · rw [if_pos hipf]
          cases hl : loadIPFire input with
          | error e => exact ⟨.loadFailed input.File e, rfl⟩
          | ok s =>
            obtain ⟨e, he⟩ := ih ⟨inp, hmem', hbad1, hbad2⟩
            rw [he]
            exact ⟨e, rfl⟩
        · rw [if_neg hipf]
          exact ⟨.unsupportedInput input.File, rfl⟩

theorem loadSources_first_bad_named {σ ε : Type}
    (loadCSV loadIPFire : InputFile → Except ε σ) (bad : InputFile)
    (hbad1 : goHasSuffix bad.File ".csv" = false)
    (hbad2 : goHasSuffix bad.File ".ipfire.txt" = false) :
    ∀ (pre rest : List InputFile),
      (∀ p ∈ pre,
        (goHasSuffix p.File ".csv" = true ∧ (loadCSV p).isOk = true) ∨
          (goHasSuffix p.File ".csv" = false ∧ goHasSuffix p.File ".ipfire.txt" = true ∧
            (loadIPFire p).isOk = true)) →
      LoadSources loadCSV loadIPFire (pre ++ bad :: rest) =
        .error (.unsupportedInput bad.File) := by
  intro pre
  induction pre with
  | nil =>
    intro rest _
    simp only [List.nil_append, LoadSources]
    rw [if_neg (by simp [hbad1]), if_neg (by simp [hbad2])]
  | cons p ps ih =>
    intro rest hall
    rcases hall p (by simp) with ⟨hcsv, hok⟩ | ⟨hncsv, hipf, hok⟩
    · obtain ⟨s, hs⟩ := (except_isOk_iff _).1 hok
      simp only [List.cons_append, LoadSources, List.append_eq]
      rw [if_pos hcsv, hs, ih rest (fun q hq => hall q (by simp [hq]))]
    · obtain ⟨s, hs⟩ := (except_isOk_iff _).1 hok
      simp only [List.cons_append, LoadSources, List.append_eq]
      rw [if_neg (by simp [hncsv]), if_pos hipf, hs,
        ih rest (fun q hq => hall q (by simp [hq]))]

/-- C10 (amended): `LoadSources` never returns a partial source list: a
successful result has one source per configured input, each with a supported
suffix; any input with an unsupported suffix forces an error result (hence no
sources); and the error names the unsupported file exactly when every input
listed before it loads successfully -- an earlier load failure is reported
instead, naming that earlier file. -/
theorem load_sources_dispatch {σ ε : Type}
    (loadCSV loadIPFire : InputFile → Except ε σ) (inputs : List InputFile) :
    (∀ l, LoadSources loadCSV loadIPFire inputs = .ok l →
      l.length = inputs.length ∧
        ∀ inp ∈ inputs, goHasSuffix inp.File ".csv" = true ∨
          goHasSuffix inp.File ".ipfire.txt" = true) ∧
    ((∃ inp ∈ inputs, goHasSuffix inp.File ".csv" = false ∧
        goHasSuffix inp.File ".ipfire.txt" = false) →
      ∃ e, LoadSources loadCSV loadIPFire inputs = .error e) ∧
    (∀ pre bad rest, inputs = pre ++ bad :: rest →
      goHasSuffix bad.File ".csv" = false → goHasSuffix bad.File ".ipfire.txt" = false →
      (∀ p ∈ pre,
        (goHasSuffix p.File ".csv" = true ∧ (loadCSV p).isOk = true) ∨
          (goHasSuffix p.File ".csv" = false ∧ goHasSuffix p.File ".ipfire.txt" = true ∧
            (loadIPFire p).isOk = true)) →
      LoadSources loadCSV loadIPFire inputs = .error (.unsupportedInput bad.File)) := by
  refine ⟨fun l => (loadSources_length loadCSV loadIPFire inputs l),
    loadSources_bad_suffix_error loadCSV loadIPFire inputs, ?_⟩
  intro pre bad rest heq hbad1 hbad2 hall
  rw [heq]
  exact loadSources_first_bad_named loadCSV loadIPFire bad hbad1 hbad2 pre rest hall

theorem load_sources_dispatch_witness :
    ([⟨"geo.csv"⟩, ⟨"feed.dat"⟩] = ([⟨"geo.csv"⟩] : List InputFile) ++ ⟨"feed.dat"⟩ :: []) ∧
      (goHasSuffix "feed.dat" ".csv" = false) ∧
      (goHasSuffix "feed.dat" ".ipfire.txt" = false) ∧
      LoadSources (fun _ => (Except.ok 0 : Except Unit Nat)) (fun _ => Except.ok 0)
          ([⟨"geo.csv"⟩, ⟨"feed.dat"⟩] : List InputFile) =
        .error (.unsupportedInput "feed.dat") := by
  refine ⟨rfl, rfl, rfl, ?_⟩
  exact (load_sources_dispatch (fun _ => (Except.ok 0 : Except Unit Nat)) (fun _ => Except.ok 0)
      [⟨"geo.csv"⟩, ⟨"feed.dat"⟩]).2.2
    [⟨"geo.csv"⟩] ⟨"feed.dat"⟩ [] rfl rfl rfl (by decide)

/-- C10 counterexample: when an earlier input fails to load, the returned
error names that earlier file, not the later input with the unsupported
suffix -- refuting "returns an error naming the unsupported file" as an
unconditional guarantee (no sources are returned either way). -/
theorem load_sources_dispatch_counterexample :
    (goHasSuffix "b.txt" ".csv" = false ∧ goHasSuffix "b.txt" ".ipfire.txt" = false) ∧
      LoadSources (fun _ => (Except.error () : Except Unit Nat)) (fun _ => Except.ok 0)
          ([⟨"a.csv"⟩, ⟨"b.txt"⟩] : List InputFile) =
        .error (.loadFailed "a.csv" ()) ∧
      (LoadError.loadFailed "a.csv" () ≠ .unsupportedInput "b.txt") :=
  ⟨⟨rfl, rfl⟩, rfl, by simp⟩

theorem charsLt_asymm : ∀ as bs : List Char, charsLt as bs = true → charsLt bs as = false := by
  intro as
  induction as with
  | nil =>
    intro bs h
    cases bs with
    | nil => simp [charsLt] at h
    | cons b bs => simp [charsLt]
  | cons a as ih =>
    intro bs h
    cases bs with
    | nil => simp [charsLt] at h
    | cons b bs =>
      by_cases h1 : a.toNat < b.toNat
      · simp [charsLt, h1, show ¬b.toNat < a.toNat from by omega]
      · by_cases h2 : b.toNat < a.toNat
        · simp [charsLt, h1, h2] at h
        · simp [charsLt, h1, h2] at h ⊢
          exact ih bs h

theorem charsLt_total : ∀ as bs : List Char, as ≠ bs →
    charsLt as bs = true ∨ charsLt bs as = true := by
  intro as
  induction as with
  | nil =>
    intro bs h
    cases bs with
    | nil => exact absurd rfl h
    | cons b bs => exact .inl (by simp [charsLt])
  | cons a as ih =>
    intro bs h
    cases bs with
    | nil => exact .inr (by simp [charsLt])
    | cons b bs =>
      by_cases h1 : a.toNat < b.toNat
      · exact .inl (by simp [charsLt, h1])
      · by_cases h2 : b.toNat < a.toNat
        · exact .inr (by simp [charsLt, h2])
        · have hab : a = b := by
            have hval : a.val = b.val := by
              apply UInt32.ext
              simp only [Char.toNat] at h1 h2
              omega
            exact Char.eq_of_val_eq hval
          subst hab
          have htail : as ≠ bs := by
            intro he
            exact h (by rw [he])
          rcases ih bs htail with ht | ht
          · exact .inl (by simp [charsLt, h1, h2, ht])
          · exact .inr (by simp [charsLt, h1, h2, ht])

theorem charsLt_trans : ∀ as bs cs : List Char,
    charsLt as bs = true → charsLt bs cs = true → charsLt as cs = true := by
  intro as
  induction as with
  | nil =>
    intro bs cs h1 h2
    cases bs with
    | nil => simp [charsLt] at h1
    | cons b bs =>
      cases cs with
      | nil => simp [charsLt] at h2
      | cons c cs => simp [charsLt]
  | cons a as ih =>
    intro bs cs h1 h2
    cases bs with
    | nil => simp [charsLt] at h1
    | cons b bs =>
      cases cs with
      | nil => simp [charsLt] at h2
      | cons c cs =>
        by_cases hab1 : a.toNat < b.toNat <;> by_cases hbc1 : b.toNat < c.toNat
        · simp [charsLt, show a.toNat < c.toNat from by omega]
        · by_cases hbc2 : c.toNat < b.toNat
          · simp [charsLt, hbc1, hbc2] at h2
          · simp [charsLt, show a.toNat < c.toNat from by omega]
        · by_cases hab2 : b.toNat < a.toNat
          · simp [charsLt, hab1, hab2] at h1
          · simp [charsLt, show a.toNat < c.toNat from by omega]
        · by_cases hab2 : b.toNat < a.toNat
          · simp [charsLt, hab1, hab2] at h1
          · by_cases hbc2 : c.toNat < b.toNat
            · simp [charsLt, hbc1, hbc2] at h2
            · have hac1 : ¬a.toNat < c.toNat := by omega
              have hac2 : ¬c.toNat < a.toNat := by omega
              simp [charsLt, hab1, hab2, hbc1, hbc2] at h1 h2
              simp [charsLt, hac1, hac2]
              exact ih bs cs h1 h2

theorem keyLt_total (a b : String) (h : a ≠ b) : keyLt a b = true ∨ keyLt b a = true := by
  apply charsLt_total
  intro hdata
  apply h
  cases a
  cases b
  cases hdata
  rfl

theorem keyLt_asymm (a b : String) (h : keyLt a b = true) : keyLt b a = false :=
  charsLt_asymm a.data b.data h

theorem keyLt_trans (a b c : String) (h1 : keyLt a b = true) (h2 : keyLt b c = true) :
    keyLt a c = true :=
  charsLt_trans a.data b.data c.data h1 h2

theorem lookup_insertField_self (m : MMap) (k : String) (v : DataType) :
    lookupField (insertField m k v) k = some v := by
  induction m with
  | nil => simp [insertField, lookupField]
  | cons head rest ih =>
    obtain ⟨k1, v1⟩ := head
    by_cases h1 : k = k1
    · simp [insertField, h1, lookupField]
    · by_cases h2 : keyLt k k1 = true
      · simp [insertField, h1, h2, lookupField]
      · simp [insertField, h1, h2, lookupField, ih]

theorem lookup_insertField_ne (m : MMap) (k : String) (v : DataType) (k' : String)
    (h : k' ≠ k) : lookupField (insertField m k v) k' = lookupField m k' := by
  induction m with
  | nil => simp [insertField, lookupField, h]
  | cons head rest ih =>
    obtain ⟨k1, v1⟩ := head
    by_cases h1 : k = k1
    · subst h1
      simp [insertField, lookupField, h]
    · by_cases h2 : keyLt k k1 = true
      · simp [insertField, h1, h2, lookupField, h]
      · simp [insertField, h1, h2, lookupField, ih]

theorem insertField_insertField_self (m : MMap) (k : String) (a b : DataType) :
    insertField (insertField m k a) k b = insertField m k b := by
  induction m with
  | nil => simp [insertField]
  | cons head rest ih =>
    obtain ⟨k1, v1⟩ := head
    by_cases h1 : k = k1
    · simp [insertField, h1]
    · by_cases h2 : keyLt k k1 = true
      · simp [insertField, h1, h2]
      · simp [insertField, h1, h2, ih]

theorem insertField_comm (k k' : String) (v v' : DataType) (h : k ≠ k') :
    ∀ m : MMap, insertField (insertField m k v) k' v' = insertField (insertField m k' v') k v := by
  intro m
  induction m with
  | nil =>
    rcases keyLt_total k k' h with hlt | hgt
    · simp [insertField, h, Ne.symm h, hlt, keyLt_asymm k k' hlt]
    · simp [insertField, h, Ne.symm h, hgt, keyLt_asymm k' k hgt]
  | cons head rest ih =>
    obtain ⟨k1, v1⟩ := head
    by_cases e1 : k = k1
    · subst e1
      rcases keyLt_total k k' h with hlt | hgt
      · simp [insertField, h, Ne.symm h, hlt, keyLt_asymm k k' hlt]
      · simp [insertField, h, Ne.symm h, hgt, keyLt_asymm k' k hgt]
    · by_cases e2 : k' = k1
      · subst e2
        rcases keyLt_total k k' h with hlt | hgt
        · simp [insertField, e1, h, Ne.symm h, hlt, keyLt_asymm k k' hlt]
        · simp [insertField, e1, h, Ne.symm h, hgt, keyLt_asymm k' k hgt]
      · by_cases l1 : keyLt k k1 = true <;> by_cases l2 : keyLt k' k1 = true
        · rcases keyLt_total k k' h with hlt | hgt
          · simp [insertField, e1, e2, l1, l2, h, Ne.symm h, hlt, keyLt_asymm k k' hlt]
          · simp [insertField, e1, e2, l1, l2, h, Ne.symm h, hgt, keyLt_asymm k' k hgt]
        · have hk1k' : keyLt k1 k' = true := by
            rcases keyLt_total k' k1 e2 with ht | ht
            · exact absurd ht l2
            · exact ht
          have hlt : keyLt k k' = true := keyLt_trans k k1 k' l1 hk1k'
          simp [insertField, e1, e2, l1, l2, h, Ne.symm h, hlt, keyLt_asymm k k' hlt]
        · have hk1k : keyLt k1 k = true := by
            rcases keyLt_total k k1 e1 with ht | ht
            · exact absurd ht l1
            · exact ht
          have hgt : keyLt k' k = true := keyLt_trans k' k1 k l2 hk1k
          simp [insertField, e1, e2, l1, l2, h, Ne.symm h, hgt, keyLt_asymm k' k hgt]
        · simp [insertField, e1, e2, l1, l2, ih]

theorem lookup_applyUpd_ne (m : MMap) (k : String) (f : Option DataType → Option DataType)
    (k' : String) (h : k' ≠ k) : lookupField (applyUpd m k f) k' = lookupField m k' := by
  unfold applyUpd
  cases hf : f (lookupField m k) with
  | none => rfl
  | some x => exact lookup_insertField_ne m k x k' h

theorem setPathT_cons (m : MMap) (s : String) (ps : List String) (v : DataType) :
    setPathT m (s :: ps) v = applyUpd m s (pathUpd ps v) := by
  cases ps with
  | nil => simp [setPathT, applyUpd, pathUpd]
  | cons n rest =>
    cases hm : lookupField m s with
    | none => simp [setPathT, applyUpd, pathUpd, hm]
    | some d =>
      cases d <;> simp [setPathT, applyUpd, pathUpd, hm]

theorem applyUpd_eq_none (m : MMap) (k : String) (f : Option DataType → Option DataType)
    (h : f (lookupField m k) = none) : applyUpd m k f = m := by
  simp [applyUpd, h]

theorem applyUpd_eq_some (m : MMap) (k : String) (f : Option DataType → Option DataType)
    (x : DataType) (h : f (lookupField m k) = some x) : applyUpd m k f = insertField m k x := by
  simp [applyUpd, h]

theorem applyUpd_comm (m : MMap) (s t : String) (f g : Option DataType → Option DataType)
    (h : s ≠ t) : applyUpd (applyUpd m s f) t g = applyUpd (applyUpd m t g) s f := by
  cases hf : f (lookupField m s) with
  | none =>
    rw [applyUpd_eq_none m s f hf,
      applyUpd_eq_none (applyUpd m t g) s f (by rw [lookup_applyUpd_ne m t g s h, hf])]
  | some x =>
    rw [applyUpd_eq_some m s f x hf]
    cases hg : g (lookupField m t) with
    | none =>
      rw [applyUpd_eq_none m t g hg,
        applyUpd_eq_none (insertField m s x) t g
          (by rw [lookup_insertField_ne m s x t (Ne.symm h), hg]),
        applyUpd_eq_some m s f x hf]
    | some y =>
      rw [applyUpd_eq_some m t g y hg,
        applyUpd_eq_some (insertField m s x) t g y
          (by rw [lookup_insertField_ne m s x t (Ne.symm h), hg]),
        applyUpd_eq_some (insertField m t y) s f x
          (by rw [lookup_insertField_ne m t y s h, hf]),
        insertField_comm s t x y h m]

theorem setPathT_comm (v w : DataType) :
    ∀ (p q : List String) (m : MMap), segDisjoint p q = true →
      setPathT (setPathT m p v) q w = setPathT (setPathT m q w) p v := by
  intro p
  induction p with
  | nil =>
    intro q m hd
    simp [segDisjoint, List.isPrefixOf] at hd
  | cons s ps ih =>
    intro q m hd
    cases q with
    | nil => simp [segDisjoint, List.isPrefixOf] at hd
    | cons t qs =>
      by_cases hst : s = t
      · subst hst
        have hd' : segDisjoint ps qs = true := by
          simpa [segDisjoint, List.isPrefixOf] using hd
        cases ps with
        | nil => simp [segDisjoint, List.isPrefixOf] at hd
        | cons p1 ps' =>
          cases qs with
          | nil => simp [segDisjoint, List.isPrefixOf] at hd
          | cons q1 qs' =>
            cases hm : lookupField m s with
            | none =>
              simp only [setPathT, hm, lookup_insertField_self,
                insertField_insertField_self]
              rw [ih (q1 :: qs') [] hd']
            | some d =>
              cases d with
              | Map sub =>
                simp only [setPathT, hm, lookup_insertField_self,
                  insertField_insertField_self]
                rw [ih (q1 :: qs') sub hd']
              | Bool b => simp only [setPathT, hm]
              | Str x => simp only [setPathT, hm]
              | Bytes x => simp only [setPathT, hm]
              | Int32 x => simp only [setPathT, hm]
              | UInt16 x => simp only [setPathT, hm]
              | UInt32 x => simp only [setPathT, hm]
              | UInt64 x => simp only [setPathT, hm]
              | Float32 x => simp only [setPathT, hm]
              | Float64 x => simp only [setPathT, hm]
              | Slice x => simp only [setPathT, hm]
      · rw [setPathT_cons m s ps v, setPathT_cons _ t qs w, setPathT_cons m t qs w,
          setPathT_cons _ s ps v]
        exact applyUpd_comm m s t (pathUpd ps v) (pathUpd qs w) hst

theorem freePath_nil_map (p : List String) : FreePath [] p := by
  cases p with
  | nil => trivial
  | cons s ps =>
    cases ps with
    | nil => trivial
    | cons n rest => simp [FreePath, lookupField]

theorem setPath_eq_ok (v : DataType) :
    ∀ (p : List String) (m : MMap), FreePath m p → setPath m p v = .ok (setPathT m p v) := by
  intro p
  induction p with
  | nil => intro m _; rfl
  | cons s ps ih =>
    intro m hf
    cases ps with
    | nil => rfl
    | cons n rest =>
      cases hm : lookupField m s with
      | none =>
        have := ih [] (freePath_nil_map (n :: rest))
        simp [setPath, setPathT, hm, this]
      | some d =>
        cases d with
        | Map sub =>
          have hf' : FreePath sub (n :: rest) := by
            simpa [FreePath, hm] using hf
          simp [setPath, setPathT, hm, ih sub hf']
        | Bool b => simp [FreePath, hm] at hf
        | Str x => simp [FreePath, hm] at hf
        | Bytes x => simp [FreePath, hm] at hf
        | Int32 x => simp [FreePath, hm] at hf
        | UInt16 x => simp [FreePath, hm] at hf
        | UInt32 x => simp [FreePath, hm] at hf
        | UInt64 x => simp [FreePath, hm] at hf
        | Float32 x => simp [FreePath, hm] at hf
        | Float64 x => simp [FreePath, hm] at hf
        | Slice x => simp [FreePath, hm] at hf

theorem freePath_setPathT (v : DataType) :
    ∀ (q p : List String) (m : MMap), segDisjoint q p = true →
      FreePath m p → FreePath (setPathT m q v) p := by
  intro q
  induction q with
  | nil => intro p m hd _; simp [segDisjoint, List.isPrefixOf] at hd
  | cons t qs ih =>
    intro p m hd hf
    cases p with
    | nil => trivial
    | cons s ps =>
      cases ps with
      | nil => trivial
      | cons r rest =>
        by_cases hts : t = s
        · subst hts
          have hqs : qs ≠ [] := by
            rintro rfl
            simp [segDisjoint, List.isPrefixOf] at hd
          have hd' : segDisjoint qs (r :: rest) = true := by
            simpa [segDisjoint, List.isPrefixOf] using hd
          cases hqs' : qs with
          | nil => exact absurd hqs' hqs
          | cons q1 qs' =>
            subst hqs'
            cases hm : lookupField m t with
            | none =>
              simp only [setPathT, hm]
              simp only [FreePath, lookup_insertField_self]
              exact ih (r :: rest) [] hd' (freePath_nil_map _)
            | some d =>
              cases d with
              | Map sub =>
                have hf' : FreePath sub (r :: rest) := by
                  simpa [FreePath, hm] using hf
                simp only [setPathT, hm]
                simp only [FreePath, lookup_insertField_self]
                exact ih (r :: rest) sub hd' hf'
              | Bool b => simp [FreePath, hm] at hf
              | Str x => simp [FreePath, hm] at hf
              | Bytes x => simp [FreePath, hm] at hf
              | Int32 x => simp [FreePath, hm] at hf
              | UInt16 x => simp [FreePath, hm] at hf
              | UInt32 x => simp [FreePath, hm] at hf
              | UInt64 x => simp [FreePath, hm] at hf
              | Float32 x => simp [FreePath, hm] at hf
              | Float64 x => simp [FreePath, hm] at hf
              | Slice x => simp [FreePath, hm] at hf
        · have hlk : lookupField (setPathT m (t :: qs) v) s = lookupField m s := by
            rw [setPathT_cons]
            exact lookup_applyUpd_ne m t (pathUpd qs v) s (Ne.symm hts)
          simp only [FreePath, hlk]
          simpa [FreePath] using hf

theorem segDisjoint_symm {a b : List String} (h : segDisjoint a b = true) :
    segDisjoint b a = true := by
  simp [segDisjoint] at h ⊢
  exact ⟨h.2, h.1⟩

theorem assembleFrom_cons_ok (o : Optimizations) (m : MMap) (key : String)
    (sv : SourceValue) (rest : List (String × SourceValue)) (d : DataType)
    (hd : SourceValue.ToMMDBType sv o = .ok d) (hf : FreePath m (segsOf key)) :
    assembleFrom o m ((key, sv) :: rest) =
      assembleFrom o (setPathT m (segsOf key) d) rest := by
  simp only [assembleFrom, hd]
  rw [setPath_eq_ok d (goSplitDots key) m hf]
  rfl

theorem assemble_ok (o : Optimizations) :
    ∀ (L : List (String × SourceValue)) (m : MMap),
      (∀ kv ∈ L, (SourceValue.ToMMDBType kv.2 o).isOk = true) →
      List.Pairwise (fun a b => segDisjoint (segsOf a.1) (segsOf b.1) = true) L →
      (∀ kv ∈ L, FreePath m (segsOf kv.1)) →
      ∃ mm, assembleFrom o m L = .ok mm := by
  intro L
  induction L with
  | nil => intro m _ _ _; exact ⟨m, rfl⟩
  | cons x rest ih =>
    intro m hok hpw hfp
    obtain ⟨key, sv⟩ := x
    obtain ⟨d, hd⟩ := (except_isOk_iff _).1 (hok (key, sv) (by simp))
    rw [assembleFrom_cons_ok o m key sv rest d hd (hfp (key, sv) (by simp))]
    refine ih (setPathT m (segsOf key) d)
      (fun kv hkv => hok kv (by simp [hkv]))
      (List.Pairwise.of_cons hpw)
      (fun kv hkv => ?_)
    have hdisj : segDisjoint (segsOf key) (segsOf kv.1) = true :=
      (List.pairwise_cons.1 hpw).1 kv hkv
    exact freePath_setPathT d (segsOf key) (segsOf kv.1) m hdisj
      (hfp kv (by simp [hkv]))

theorem assemble_perm (o : Optimizations) :
    ∀ {L L' : List (String × SourceValue)}, L.Perm L' →
      ∀ m : MMap,
        (∀ kv ∈ L, (SourceValue.ToMMDBType kv.2 o).isOk = true) →
        List.Pairwise (fun a b => segDisjoint (segsOf a.1) (segsOf b.1) = true) L →
        (∀ kv ∈ L, FreePath m (segsOf kv.1)) →
        assembleFrom o m L = assembleFrom o m L' := by
  intro L L' hperm
  induction hperm with
  | nil => intro m _ _ _; rfl
  | cons x hperm ih =>
    intro m hok hpw hfp
    obtain ⟨key, sv⟩ := x
    obtain ⟨d, hd⟩ := (except_isOk_iff _).1 (hok (key, sv) (by simp))
    rw [assembleFrom_cons_ok o m key sv _ d hd (hfp (key, sv) (by simp)),
      assembleFrom_cons_ok o m key sv _ d hd (hfp (key, sv) (by simp))]
    refine ih (setPathT m (segsOf key) d)
      (fun kv hkv => hok kv (by simp [hkv]))
      (List.Pairwise.of_cons hpw)
      (fun kv hkv => ?_)
    have hdisj : segDisjoint (segsOf key) (segsOf kv.1) = true :=
      (List.pairwise_cons.1 hpw).1 kv hkv
    exact freePath_setPathT d (segsOf key) (segsOf kv.1) m hdisj
      (hfp kv (by simp [hkv]))
  | swap x y l =>
    intro m hok hpw hfp
    obtain ⟨ky, sy⟩ := y
    obtain ⟨kx, sx⟩ := x
    obtain ⟨dy, hdy⟩ := (except_isOk_iff _).1 (hok (ky, sy) (by simp))
    obtain ⟨dx, hdx⟩ := (except_isOk_iff _).1 (hok (kx, sx) (by simp))
    have hfy : FreePath m (segsOf ky) := hfp (ky, sy) (by simp)
    have hfx : FreePath m (segsOf kx) := hfp (kx, sx) (by simp)
    have hdisj : segDisjoint (segsOf ky) (segsOf kx) = true :=
      (List.pairwise_cons.1 hpw).1 (kx, sx) (by simp)
    rw [assembleFrom_cons_ok o m ky sy _ dy hdy hfy,
      assembleFrom_cons_ok o _ kx sx _ dx hdx
        (freePath_setPathT dy (segsOf ky) (segsOf kx) m hdisj hfx),
      assembleFrom_cons_ok o m kx sx _ dx hdx hfx,
      assembleFrom_cons_ok o _ ky sy _ dy hdy
        (freePath_setPathT dx (segsOf kx) (segsOf ky) m (segDisjoint_symm hdisj) hfy),
      setPathT_comm dy dx (segsOf ky) (segsOf kx) m hdisj]
  | trans h12 h23 ih12 ih23 =>
    intro m hok hpw hfp
    refine (ih12 m hok hpw hfp).trans (ih23 m ?_ ?_ ?_)
    · intro kv hkv
      exact hok kv (h12.mem_iff.2 hkv)
    · exact (h12.pairwise_iff (fun hxy => segDisjoint_symm hxy)).1 hpw
    · intro kv hkv
      exact hfp kv (h12.mem_iff.2 hkv)

/-- C4: for a flat mapping whose dotted paths are pairwise non-prefix-related
(and whose values all coerce), document assembly succeeds, and the resulting
nested `Document` is the same for every iteration order over the mapping. -/
theorem assembly_order_independent (se se' : SourceEntry) (o : Optimizations)
    (hperm : se.Values.Perm se'.Values)
    (hpw : List.Pairwise (fun a b => segDisjoint (segsOf a.1) (segsOf b.1) = true) se.Values)
    (hok : ∀ kv ∈ se.Values, (SourceValue.ToMMDBType kv.2 o).isOk = true) :
    SourceEntry.ToMMDBMap se o = SourceEntry.ToMMDBMap se' o ∧
      ∃ m, SourceEntry.ToMMDBMap se o = .ok m := by
  constructor
  · exact assemble_perm o hperm [] hok hpw (fun kv _ => freePath_nil_map _)
  · exact assemble_ok o se.Values [] hok hpw (fun kv _ => freePath_nil_map _)

theorem assembly_order_independent_witness :
    (([("a.b", ⟨"string", "X"⟩), ("a.c", ⟨"string", "Y"⟩)] : List (String × SourceValue)).Perm
        [("a.c", ⟨"string", "Y"⟩), ("a.b", ⟨"string", "X"⟩)]) ∧
      (List.Pairwise (fun a b => segDisjoint (segsOf a.1) (segsOf b.1) = true)
        ([("a.b", ⟨"string", "X"⟩), ("a.c", ⟨"string", "Y"⟩)] : List (String × SourceValue))) ∧
      (∀ kv ∈ ([("a.b", ⟨"string", "X"⟩), ("a.c", ⟨"string", "Y"⟩)] :
          List (String × SourceValue)),
        (SourceValue.ToMMDBType kv.2 (⟨0⟩ : Optimizations)).isOk = true) ∧
      (SourceEntry.ToMMDBMap ⟨[("a.b", ⟨"string", "X"⟩), ("a.c", ⟨"string", "Y"⟩)]⟩ ⟨0⟩ =
          SourceEntry.ToMMDBMap ⟨[("a.c", ⟨"string", "Y"⟩), ("a.b", ⟨"string", "X"⟩)]⟩ ⟨0⟩ ∧
        ∃ m, SourceEntry.ToMMDBMap ⟨[("a.b", ⟨"string", "X"⟩), ("a.c", ⟨"string", "Y"⟩)]⟩ ⟨0⟩ =
          .ok m) ∧
      SourceEntry.ToMMDBMap ⟨[("a.b", ⟨"string", "X"⟩), ("a.c", ⟨"string", "Y"⟩)]⟩ ⟨0⟩ =
        .ok [("a", .Map [("b", .Str "X"), ("c", .Str "Y")])] :=
  ⟨by decide, by decide, by decide,
    assembly_order_independent ⟨[("a.b", ⟨"string", "X"⟩), ("a.c", ⟨"string", "Y"⟩)]⟩
      ⟨[("a.c", ⟨"string", "Y"⟩), ("a.b", ⟨"string", "X"⟩)]⟩ ⟨0⟩
      (by decide) (by decide) (by decide), rfl⟩

/-- C1 (amended): assembling a mapping that contains both a path and a strict
extension of it is order-dependent: when the shorter path's scalar is placed
first, processing the longer path finds a scalar leaf at an intermediate
segment and fails with the conflicting-shape error; but in the opposite order
the final assignment for the shorter path silently overwrites the existing
sub-document, and assembly succeeds. -/
theorem conflict_order_dependent (x y : String) (o : Optimizations) :
    SourceEntry.ToMMDBMap ⟨[("a", ⟨"string", x⟩), ("a.b", ⟨"string", y⟩)]⟩ o =
        .error (.conflictingShape "a.b" "a") ∧
      SourceEntry.ToMMDBMap ⟨[("a.b", ⟨"string", y⟩), ("a", ⟨"string", x⟩)]⟩ o =
        .ok [("a", .Str x)] := by
  have hstr : ∀ z : String, SourceValue.ToMMDBType ⟨"string", z⟩ o = .ok (.Str z) := by
    intro z
    simp [SourceValue.ToMMDBType, show cutTag "string" "array:" = none from rfl, toMMDBType]
  have hsa : goSplitDots "a" = ["a"] := rfl
  have hsab : goSplitDots "a.b" = ["a", "b"] := rfl
  constructor
  · simp [SourceEntry.ToMMDBMap, assembleFrom, hstr, hsa, hsab, setPath, insertField,
      lookupField]
  · simp [SourceEntry.ToMMDBMap, assembleFrom, hstr, hsa, hsab, setPath, insertField,
      lookupField]

theorem conflict_order_dependent_witness :
    SourceEntry.ToMMDBMap ⟨[("a", ⟨"string", "X"⟩), ("a.b", ⟨"string", "Y"⟩)]⟩ ⟨0⟩ =
        .error (.conflictingShape "a.b" "a") ∧
      SourceEntry.ToMMDBMap ⟨[("a.b", ⟨"string", "Y"⟩), ("a", ⟨"string", "X"⟩)]⟩ ⟨0⟩ =
        .ok [("a", .Str "X")] :=
  conflict_order_dependent "X" "Y" ⟨0⟩

/-- C1 counterexample: the mapping `{"a.b": Y, "a": X}` processed in this
iteration order assembles WITHOUT an error -- the final assignment for `"a"`
silently replaces the sub-document built for `"a.b"` -- refuting "fails with a
conflicting-shape error regardless of the order". -/
theorem conflict_order_dependent_counterexample :
    SourceEntry.ToMMDBMap ⟨[("a.b", ⟨"string", "Y"⟩), ("a", ⟨"string", "X"⟩)]⟩ ⟨0⟩ =
        .ok [("a", .Str "X")] ∧
      (SourceEntry.ToMMDBMap ⟨[("a.b", ⟨"string", "Y"⟩), ("a", ⟨"string", "X"⟩)]⟩ ⟨0⟩).isOk =
        true :=
  ⟨rfl, rfl⟩
